import Mathlib

/-!
Verification of the transcript pipeline (src/main.rs): the WAV length
patcher (StreamNormalizer), the PCM decoder front end (parse_wav), the
SRT timestamp formatter (segment_time_to_srt_time_string) and the
transcript/SRT rendering loop in main.

Bytes are modelled as natural numbers; the patcher never depends on the
byte bound.  Rust i64 arithmetic is modelled on Int, with explicit
two's-complement wrapping where overflow is possible, and with
Int.tdiv / Int.tmod for Rust's truncating division and remainder.
A Rust panic (assert failure, explicit panic) is modelled as Option.none
or Except.error.
-/

namespace Transcript

/-- One step of the match inside the loop of WavLengthPatcher::read
(src/main.rs lines 192-201): given the absolute offset `off = p + pos`
and the byte `b = buf[p]`, offsets 0x04 and 0x4A assert the byte is 0xFF
and overwrite it with 0xF0; offsets 0x05, 0x06, 0x07, 0x4B, 0x4C, 0x4D
assert the byte is 0xFF and leave it; all other offsets leave the byte.
`none` models the assert panic. -/
def patchByte (off b : Nat) : Option Nat :=
  if off = 0x04 ∨ off = 0x4A then
    if b = 0xFF then some 0xF0 else none
  else if off = 0x05 ∨ off = 0x06 ∨ off = 0x07 ∨ off = 0x4B ∨ off = 0x4C ∨ off = 0x4D then
    if b = 0xFF then some b else none
  else some b

/-- The loop `for p in 0 .. capped_l` of WavLengthPatcher::read: byte
`p` of the chunk is rewritten through `patchByte (p + pos)` while
`p < capped`, and passed through unchanged once `p` reaches `capped`. -/
def patchLoop (pos capped : Nat) : Nat → List Nat → Option (List Nat)
  | _, [] => some []
  | p, b :: rest =>
    if p < capped then
      match patchByte (p + pos) b with
      | none => none
      | some b2 => (patchLoop pos capped (p + 1) rest).map (fun r => b2 :: r)
    else
      (patchLoop pos capped (p + 1) rest).map (fun r => b :: r)

/-- WavLengthPatcher::read (src/main.rs lines 186-206) acting on the
`l` bytes the underlying read produced, after the underlying read has
already succeeded.  `pos` is the patcher state `self.pos`; the result is
the new `pos` and the patched bytes, `none` modelling an assert panic.
When `pos < 0x4E` the first `min l 0x4E` bytes run through the patch
loop and `pos` advances by that capped length; otherwise everything
passes through and `pos` is untouched. -/
def WavLengthPatcher.read (pos : Nat) (chunk : List Nat) : Option (Nat × List Nat) :=
  if pos < 0x4E then
    let capped := min chunk.length 0x4E
    match patchLoop pos capped 0 chunk with
    | none => none
    | some out => some (pos + capped, out)
  else
    some (pos, chunk)

/-- A whole sequence of read calls: the chunks the underlying source
returns, processed in order through WavLengthPatcher.read, threading
`pos`; the outputs are concatenated.  `none` models a panic in any call. -/
def wlpRun (pos : Nat) : List (List Nat) → Option (Nat × List Nat)
  | [] => some (pos, [])
  | c :: cs =>
    match WavLengthPatcher.read pos c with
    | none => none
    | some (pos2, out) =>
      match wlpRun pos2 cs with
      | none => none
      | some (pos3, outs) => some (pos3, out ++ outs)

/-- Outcome of one full call to WavLengthPatcher::read including the
underlying source's result: the underlying read either fails with an
error `e` (the `?` operator propagates it) or returns the filled
buffer prefix. -/
inductive ReadOutcome (ε : Type) where
  | panicked
  | errored (e : ε) (pos : Nat) (buf : List Nat)
  | ok (l : Nat) (pos : Nat) (buf : List Nat)
deriving DecidableEq, Repr

/-- WavLengthPatcher::read with the underlying source's result made
explicit.  `res` is what `self.stream.read(buf)` returned; `buf1` is
the caller's buffer as the underlying read left it.  On `Err(e)` the
`?` operator returns the same error at once: `pos` keeps its value and
the buffer is not touched by the patcher.  On `Ok l` the first `l`
bytes run through the patcher and the rest of the buffer is unchanged. -/
def wlpReadCall {ε : Type} (pos : Nat) (res : Except ε Nat) (buf1 : List Nat) : ReadOutcome ε :=
  match res with
  | Except.error e => ReadOutcome.errored e pos buf1
  | Except.ok l =>
    match WavLengthPatcher.read pos (buf1.take l) with
    | none => ReadOutcome.panicked
    | some (pos2, out) => ReadOutcome.ok l pos2 (out ++ buf1.drop l)

/-- Windowless form of the patch pass: every byte of the list runs
through `patchByte`, the absolute offset advancing with the list.  Used
to state chunk-split invariance; equal in output to the windowed code
path because `patchByte` is the identity at offsets at or beyond 0x4E. -/
def canonPatch (off : Nat) : List Nat → Option (List Nat)
  | [] => some []
  | b :: rest =>
    match patchByte off b, canonPatch (off + 1) rest with
    | some b2, some r => some (b2 :: r)
    | _, _ => none

/-- The patched image of a byte list starting at absolute offset `off`,
assuming no assert fires: bytes at offsets 0x04 and 0x4A become 0xF0,
every other byte is kept. -/
def patchedList (off : Nat) : List Nat → List Nat
  | [] => []
  | b :: rest => (if off = 0x04 ∨ off = 0x4A then 0xF0 else b) :: patchedList (off + 1) rest

/-- The offsets whose byte the patcher asserts to be 0xFF. -/
def checkedOffsets : List Nat := [0x04, 0x05, 0x06, 0x07, 0x4A, 0x4B, 0x4C, 0x4D]

/-- Little-endian decoding of the 4 bytes of `l` starting at `off`. -/
def le32 (l : List Nat) (off : Nat) : Nat :=
  l.getD off 0 + 0x100 * l.getD (off + 1) 0 + 0x10000 * l.getD (off + 2) 0 +
    0x1000000 * l.getD (off + 3) 0

/-- hound's two sample encodings, as far as parse_wav inspects them. -/
inductive SampleFormat where
  | int
  | float
deriving DecidableEq, Repr

/-- The WAV header fields parse_wav reads from `reader.spec()`. -/
structure WavSpec where
  channels : Nat
  sample_format : SampleFormat
  sample_rate : Nat
  bits_per_sample : Nat
deriving DecidableEq, Repr

/-- One outcome of the sample iterator `reader.into_samples::<i16>()`:
a decoded sample, a hound IoError (whose inner error, when present,
displays as `inner`), or any other hound error. -/
inductive SampleOutcome where
  | ok (v : Int)
  | ioError (inner : Option String)
  | otherError (desc : String)
deriving DecidableEq, Repr

/-- The map_while body of parse_wav (src/main.rs lines 65-79) folded
over the sample outcomes: a sample is collected; an IoError whose inner
error displays exactly "Failed to read enough bytes." stops collection
and returns what was gathered; every other error is a panic, modelled
as Except.error with the panic message prefix. -/
def collectSamples : List SampleOutcome → Except String (List Int)
  | [] => Except.ok []
  | SampleOutcome.ok v :: rest =>
    match collectSamples rest with
    | Except.ok vs => Except.ok (v :: vs)
    | Except.error e => Except.error e
  | SampleOutcome.ioError (some m) :: _ =>
    if m = "Failed to read enough bytes." then Except.ok []
    else Except.error "Error reading audio data: io"
  | SampleOutcome.ioError none :: _ => Except.error "Error reading audio data: io"
  | SampleOutcome.otherError _ :: _ => Except.error "Error reading audio data: other"

/-- parse_wav (src/main.rs lines 49-80): the four profile checks in
source order, each panicking with its message, then the map_while
collection of samples. -/
def parse_wav (spec : WavSpec) (samples : List SampleOutcome) : Except String (List Int) :=
  if spec.channels ≠ 1 then Except.error "expected mono audio file"
  else if spec.sample_format ≠ SampleFormat.int then Except.error "expected integer sample format"
  else if spec.sample_rate ≠ 16000 then Except.error "expected 16KHz sample rate"
  else if spec.bits_per_sample ≠ 16 then Except.error "expected 16 bits per sample"
  else collectSamples samples

/-- The fixed profile parse_wav requires. -/
def requiredSpec : WavSpec :=
  { channels := 1, sample_format := SampleFormat.int, sample_rate := 16000,
    bits_per_sample := 16 }

/-- Reinterpret an unsigned 16-bit value as a signed i16. -/
def toI16 (n : Nat) : Int :=
  if n < 0x8000 then (n : Int) else (n : Int) - 0x10000

/-- Little-endian byte pair of a value in i16 range. -/
def encodeI16 (v : Int) : List Nat :=
  let u := (v % 0x10000).toNat
  [u % 0x100, u / 0x100]

/-- Concatenated little-endian encoding of a sample list. -/
def encodeSamples : List Int → List Nat
  | [] => []
  | v :: rest => encodeI16 v ++ encodeSamples rest

/-- Modelled from the spec: the sample reader behind
`reader.into_samples::<i16>()` lives in the external hound crate, not in
this repository.  Per §4.2 and §6 of the spec it yields one signed
16-bit little-endian sample per two payload bytes, and when fewer bytes
remain than one more sample needs it yields an I/O error whose inner
error displays "Failed to read enough bytes.". -/
def houndSamples : List Nat → List SampleOutcome
  | b0 :: b1 :: rest => SampleOutcome.ok (toI16 (b0 + 0x100 * b1)) :: houndSamples rest
  | [_] => [SampleOutcome.ioError (some "Failed to read enough bytes.")]
  | [] => []

/-- Decimal rendering of a Nat left-padded with zeros to width `w`
(Rust `{:0w}` on a non-negative value). -/
def padNat (w n : Nat) : String :=
  let s := toString n
  String.mk (List.replicate (w - s.length) '0') ++ s

/-- Rust `{:0w}` formatting of an i64: the sign, when present, counts
toward the width and the zeros pad after it. -/
def padInt (w : Nat) (n : Int) : String :=
  if n < 0 then "-" ++ padNat (w - 1) n.natAbs else padNat w n.natAbs

/-- Two's-complement wrap of an integer into the i64 range, the release
behavior of Rust arithmetic that overflows. -/
def i64wrap (x : Int) : Int := (x + 2 ^ 63) % 2 ^ 64 - 2 ^ 63

/-- segment_time_to_srt_time_string (src/main.rs lines 82-89).  All
arithmetic is Rust i64: `cmp::max(0, time)` cannot overflow, the `* 10`
can and wraps, and `/` and `%` truncate toward zero. -/
def segment_time_to_srt_time_string (time : Int) : String :=
  let positive_time := i64wrap (max 0 time * 10)
  let ms := positive_time.tmod 1000
  let seconds := (positive_time.tdiv 1000).tmod 60
  let minutes := ((positive_time.tdiv 1000).tdiv 60).tmod 60
  let hours := ((positive_time.tdiv 1000).tdiv 60).tdiv 60
  padInt 2 hours ++ ":" ++ padInt 2 minutes ++ ":" ++ padInt 2 seconds ++ "," ++ padInt 3 ms

/-- The formatter the spec describes (§4.4), on unbounded integers:
clamp to zero, take milliseconds, and decompose with exact integer
arithmetic, hours unbounded. -/
def specSrtTime (t : Int) : String :=
  let total := (max 0 t).toNat * 10
  padNat 2 (total / 1000 / 60 / 60) ++ ":" ++ padNat 2 (total / 1000 / 60 % 60) ++ ":" ++
    padNat 2 (total / 1000 % 60) ++ "," ++ padNat 3 (total % 1000)

/-- One transcription segment as main reads it back from the engine:
start and end timestamps in centiseconds and the text. -/
structure Segment where
  t0 : Int
  t1 : Int
  text : String
deriving DecidableEq, Repr

/-- The rendering loop of main (src/main.rs lines 122-135) starting at
segment index `i`: returns (srt_sequences, timestamped_lines). -/
def renderLoop (i : Nat) : List Segment → List String × List String
  | [] => ([], [])
  | s :: rest =>
    let srt := toString (i + 1) ++ "\n" ++ segment_time_to_srt_time_string s.t0 ++ " --> " ++
      segment_time_to_srt_time_string s.t1 ++ "\n" ++ s.text ++ "\n\n"
    let txt := "[" ++ toString s.t0 ++ " - " ++ toString s.t1 ++ "]: " ++ s.text ++ "\n"
    let p := renderLoop (i + 1) rest
    (srt :: p.1, txt :: p.2)

end Transcript

namespace Transcript

theorem patchByte_of_ge (b : Nat) {off : Nat} (h : 0x4E ≤ off) : patchByte off b = some b := by
  unfold patchByte
  have h4 : ¬(off = 0x04 ∨ off = 0x4A) := by omega
  have h5 : ¬(off = 0x05 ∨ off = 0x06 ∨ off = 0x07 ∨ off = 0x4B ∨ off = 0x4C ∨ off = 0x4D) := by
    omega
  rw [if_neg h4, if_neg h5]

theorem canonPatch_of_ge : ∀ (c : List Nat) {off : Nat}, 0x4E ≤ off → canonPatch off c = some c
  | [], _, _ => rfl
  | b :: rest, off, h => by
    unfold canonPatch
    rw [patchByte_of_ge b h, canonPatch_of_ge rest (by omega)]

theorem canonPatch_cons (off b : Nat) (rest : List Nat) :
    canonPatch off (b :: rest) =
      match patchByte off b, canonPatch (off + 1) rest with
      | some b2, some r => some (b2 :: r)
      | _, _ => none := rfl

theorem canonPatch_append : ∀ (a b : List Nat) (off : Nat),
    canonPatch off (a ++ b) =
      (canonPatch off a).bind (fun x => (canonPatch (off + a.length) b).map (fun y => x ++ y))
  | [], b, off => by
    simp [canonPatch]
  | hd :: tl, b, off => by
    have e1 : off + (hd :: tl).length = (off + 1) + tl.length := by
      simp only [List.length_cons]
      omega
    simp only [List.cons_append, canonPatch_cons, e1, canonPatch_append tl b (off + 1)]
    cases hb : patchByte off hd <;>
      cases ht : canonPatch (off + 1) tl <;>
        cases hb2 : canonPatch (off + 1 + tl.length) b <;> simp

theorem patchLoop_eq_canon : ∀ (c : List Nat) (p pos capped : Nat),
    (c.length + p ≤ capped ∨ 0x4E ≤ pos + capped) →
    patchLoop pos capped p c = canonPatch (pos + p) c
  | [], _, _, _, _ => rfl
  | b :: rest, p, pos, capped, h => by
    have e : pos + (p + 1) = pos + p + 1 := by omega
    unfold patchLoop canonPatch
    by_cases hp : p < capped
    · rw [if_pos hp, Nat.add_comm p pos,
        patchLoop_eq_canon rest (p + 1) pos capped (by simp at h ⊢; omega), e]
      cases hb : patchByte (pos + p) b <;> cases hr : canonPatch (pos + p + 1) rest <;> simp
    · have hge : 0x4E ≤ pos + p := by
        rcases h with h | h
        · simp at h; omega
        · omega
      rw [if_neg hp, patchLoop_eq_canon rest (p + 1) pos capped (Or.inr (by omega)), e,
        patchByte_of_ge b hge]
      cases hr : canonPatch (pos + p + 1) rest <;> simp

theorem read_eq_of_lt {pos : Nat} (c : List Nat) (h : pos < 0x4E) :
    WavLengthPatcher.read pos c =
      (canonPatch pos c).map (fun out => (pos + min c.length 0x4E, out)) := by
  have hside : c.length + 0 ≤ min c.length 0x4E ∨ 0x4E ≤ pos + min c.length 0x4E := by omega
  have hcanon := patchLoop_eq_canon c 0 pos (min c.length 0x4E) hside
  unfold WavLengthPatcher.read
  rw [if_pos h]
  simp only [hcanon, Nat.add_zero]
  cases canonPatch pos c <;> simp

theorem read_eq_of_ge {pos : Nat} (c : List Nat) (h : 0x4E ≤ pos) :
    WavLengthPatcher.read pos c = some (pos, c) := by
  unfold WavLengthPatcher.read
  rw [if_neg (by omega)]

theorem read_map_snd (pos : Nat) (c : List Nat) :
    (WavLengthPatcher.read pos c).map Prod.snd = canonPatch pos c := by
  by_cases h : pos < 0x4E
  · rw [read_eq_of_lt c h]
    cases canonPatch pos c <;> simp
  · rw [read_eq_of_ge c (le_of_not_lt h), canonPatch_of_ge c (le_of_not_lt h)]
    simp

theorem read_pos_eq {pos : Nat} (c : List Nat) {pos2 : Nat} {out : List Nat}
    (h : WavLengthPatcher.read pos c = some (pos2, out)) :
    (pos < 0x4E → pos2 = pos + min c.length 0x4E) ∧ (0x4E ≤ pos → pos2 = pos) := by
  constructor
  · intro hlt
    rw [read_eq_of_lt c hlt] at h
    cases hc : canonPatch pos c <;> rw [hc] at h <;> simp at h
    exact h.1.symm
  · intro hge
    rw [read_eq_of_ge c hge] at h
    simp at h
    exact h.1.symm

theorem wlpRun_snd : ∀ (chunks : List (List Nat)) (pos tpos : Nat),
    (pos = tpos ∨ (0x4E ≤ pos ∧ 0x4E ≤ tpos)) →
    (wlpRun pos chunks).map Prod.snd = canonPatch tpos chunks.flatten
  | [], pos, tpos, _ => by simp [wlpRun, canonPatch]
  | c :: cs, pos, tpos, hok => by
    have hsnd : canonPatch tpos c = (WavLengthPatcher.read pos c).map Prod.snd := by
      rcases hok with rfl | ⟨h1, h2⟩
      · exact (read_map_snd pos c).symm
      · rw [read_map_snd pos c, canonPatch_of_ge c h1, canonPatch_of_ge c h2]
    show (wlpRun pos (c :: cs)).map Prod.snd = canonPatch tpos (c ++ cs.flatten)
    rw [canonPatch_append c cs.flatten tpos]
    unfold wlpRun
    cases hr : WavLengthPatcher.read pos c with
    | none =>
      rw [hr] at hsnd
      simp at hsnd
      rw [hsnd]
      simp
    | some pr =>
      obtain ⟨pos2, out⟩ := pr
      rw [hr] at hsnd
      simp at hsnd
      rw [hsnd]
      have hnext : pos2 = tpos + c.length ∨ (0x4E ≤ pos2 ∧ 0x4E ≤ tpos + c.length) := by
        have hp := read_pos_eq c hr
        rcases hok with rfl | ⟨h1, h2⟩
        · by_cases hlt : pos < 0x4E
          · have := hp.1 hlt
            omega
          · have := hp.2 (by omega)
            omega
        · have := hp.2 h1
          omega
      have ih := wlpRun_snd cs pos2 (tpos + c.length) hnext
      rw [← ih]
      cases hrun : wlpRun pos2 cs <;> simp [hrun]

end Transcript

namespace Transcript

theorem patchedList_length : ∀ (c : List Nat) (off : Nat), (patchedList off c).length = c.length
  | [], _ => rfl
  | _ :: rest, off => by
    simp [patchedList, patchedList_length rest (off + 1)]

theorem patchedList_getD : ∀ (c : List Nat) (off i : Nat),
    (patchedList off c).getD i 0 =
      if (off + i = 0x04 ∨ off + i = 0x4A) ∧ i < c.length then 0xF0 else c.getD i 0
  | [], off, i => by simp [patchedList]
  | b :: rest, off, 0 => by
    simp only [patchedList, List.getD]
    by_cases h : off = 0x04 ∨ off = 0x4A
    · rw [if_pos h, if_pos (by simpa using h)]
      rfl
    · rw [if_neg h, if_neg (by simpa using h)]
      rfl
  | b :: rest, off, i + 1 => by
    have hrec := patchedList_getD rest (off + 1) i
    have he : off + 1 + i = off + (i + 1) := by omega
    have hlen : i < rest.length ↔ i + 1 < (b :: rest).length := by
      simp
    simp only [patchedList, List.getD_cons_succ, hrec, he]
    by_cases h : (off + (i + 1) = 0x04 ∨ off + (i + 1) = 0x4A) ∧ i < rest.length
    · rw [if_pos h, if_pos ⟨h.1, hlen.mp h.2⟩]
    · rw [if_neg h, if_neg (by rw [← hlen] at *; exact h)]

theorem patchedList_eq_set : ∀ (c : List Nat), patchedList 0 c = (c.set 0x04 0xF0).set 0x4A 0xF0 := by
  intro c
  apply List.ext_get
  · simp [patchedList_length]
  · intro n h1 h2
    have hn : n < c.length := by
      simpa [patchedList_length] using h1
    have hD1 : (patchedList 0 c).get ⟨n, h1⟩ = (patchedList 0 c).getD n 0 := by
      simp [List.getD_eq_getElem?_getD, List.getElem?_eq_getElem h1]
    have hD2 : ((c.set 0x04 0xF0).set 0x4A 0xF0).get ⟨n, h2⟩ =
        ((c.set 0x04 0xF0).set 0x4A 0xF0).getD n 0 := by
      simp [List.getD_eq_getElem?_getD, List.getElem?_eq_getElem h2]
    rw [hD1, hD2, patchedList_getD]
    have hset : ((c.set 0x04 0xF0).set 0x4A 0xF0).getD n 0 =
        if (0x4A = n ∧ n < c.length) ∨ (0x04 = n ∧ n < c.length) then 0xF0 else c.getD n 0 := by
      by_cases ha : n < c.length
      · have hb : n < ((c.set 0x04 0xF0).set 0x4A 0xF0).length := by simpa using ha
        have hc : n < (c.set 0x04 0xF0).length := by simpa using ha
        rw [List.getD_eq_getElem?_getD, List.getElem?_eq_getElem hb]
        rw [List.getD_eq_getElem?_getD, List.getElem?_eq_getElem ha]
        simp only [List.getElem_set, Option.getD_some]
        by_cases h74 : (0x4A : Nat) = n
        · simp [h74, ha]
        · by_cases h04 : (0x04 : Nat) = n
          · simp [h74, h04, ha]
          · simp [h74, h04]
      · have : ¬ n < ((c.set 0x04 0xF0).set 0x4A 0xF0).length := by simpa using ha
        rw [List.getD_eq_getElem?_getD, List.getElem?_eq_none (by omega),
          List.getD_eq_getElem?_getD, List.getElem?_eq_none (by omega)]
        simp [ha]
    rw [hset]
    by_cases h : (0 + n = 0x04 ∨ 0 + n = 0x4A) ∧ n < c.length
    · rw [if_pos h, if_pos (by omega)]
    · rw [if_neg h, if_neg (by omega)]

theorem canonPatch_eq_patched : ∀ (c : List Nat) (off : Nat),
    (∀ i, i < c.length → (off + i) ∈ checkedOffsets → c.getD i 0 = 0xFF) →
    canonPatch off c = some (patchedList off c)
  | [], _, _ => rfl
  | b :: rest, off, h => by
    have hrec := canonPatch_eq_patched rest (off + 1) (by
      intro i hi hmem
      have := h (i + 1) (by simpa using Nat.succ_lt_succ hi) (by
        have he : off + 1 + i = off + (i + 1) := by omega
        rw [← he]
        exact hmem)
      simpa using this)
    have hb : patchByte off b = some (if off = 0x04 ∨ off = 0x4A then 0xF0 else b) := by
      unfold patchByte
      by_cases h4 : off = 0x04 ∨ off = 0x4A
      · have hmem : off ∈ checkedOffsets := by
          rcases h4 with h4 | h4 <;> simp [checkedOffsets, h4]
        have hFF : b = 0xFF := by simpa using h 0 (by simp) (by simpa using hmem)
        rw [if_pos h4, if_pos hFF, if_pos h4]
      · by_cases h5 : off = 0x05 ∨ off = 0x06 ∨ off = 0x07 ∨ off = 0x4B ∨ off = 0x4C ∨ off = 0x4D
        · have hmem : off ∈ checkedOffsets := by
            rcases h5 with h5 | h5 | h5 | h5 | h5 | h5 <;> simp [checkedOffsets, h5]
          have hFF : b = 0xFF := by simpa using h 0 (by simp) (by simpa using hmem)
          rw [if_neg h4, if_pos h5, if_pos hFF, if_neg h4]
        · rw [if_neg h4, if_neg h5, if_neg h4]
    rw [canonPatch_cons, hb, hrec]
    rfl

theorem canonPatch_none : ∀ (c : List Nat) (off i : Nat),
    i < c.length → (off + i) ∈ checkedOffsets → c.getD i 0 ≠ 0xFF →
    canonPatch off c = none
  | [], _, i, hi, _, _ => by simp at hi
  | b :: rest, off, 0, _, hmem, hne => by
    have hb : patchByte off b = none := by
      unfold patchByte
      have hb0 : b ≠ 0xFF := by simpa using hne
      simp only [checkedOffsets, Nat.add_zero] at hmem
      by_cases h4 : off = 0x04 ∨ off = 0x4A
      · rw [if_pos h4, if_neg hb0]
      · have h5 : off = 0x05 ∨ off = 0x06 ∨ off = 0x07 ∨ off = 0x4B ∨ off = 0x4C ∨ off = 0x4D := by
          simp at hmem
          rcases hmem with h | h | h | h | h | h | h | h <;> simp [h] at h4 ⊢
        rw [if_neg h4, if_pos h5, if_neg hb0]
    rw [canonPatch_cons, hb]
  | b :: rest, off, i + 1, hi, hmem, hne => by
    have hrec : canonPatch (off + 1) rest = none := by
      apply canonPatch_none rest (off + 1) i (by simpa using Nat.lt_of_succ_lt_succ hi)
      · have he : off + 1 + i = off + (i + 1) := by omega
        rw [he]
        exact hmem
      · simpa using hne
    rw [canonPatch_cons, hrec]
    cases patchByte off b <;> rfl

end Transcript

namespace Transcript

theorem setTwo_getD (input : List Nat) (i : Nat) :
    ((input.set 0x04 0xF0).set 0x4A 0xF0).getD i 0 =
      if (i = 0x04 ∨ i = 0x4A) ∧ i < input.length then 0xF0 else input.getD i 0 := by
  rw [← patchedList_eq_set, patchedList_getD]
  simp only [Nat.zero_add]

theorem read_of_allFF (input : List Nat) (hlen : 0x4E ≤ input.length)
    (hFF : ∀ o ∈ checkedOffsets, input.getD o 0 = 0xFF) :
    WavLengthPatcher.read 0 input = some (0x4E, patchedList 0 input) := by
  have hFF' : ∀ i, i < input.length → (0 + i) ∈ checkedOffsets → input.getD i 0 = 0xFF := by
    intro i _ hm
    exact hFF i (by simpa using hm)
  have hcp := canonPatch_eq_patched input 0 hFF'
  rw [read_eq_of_lt input (by norm_num), hcp]
  simp [Nat.min_eq_right hlen]

/-- C1: on a stream at least 78 bytes long whose bytes at offsets
4,5,6,7,74,75,76,77 are all 0xFF, WavLengthPatcher::read succeeds and
returns the input with exactly the bytes at offsets 4 and 74 replaced
by 0xF0; every other byte (in the header region and at offset 78 and
beyond) passes through unchanged, and both patched 4-byte little-endian
length fields decode to the finite positive value 0xFFFFFFF0. -/
theorem stream_normalizer_patches_header (input : List Nat) (hlen : 0x4E ≤ input.length)
    (hFF : ∀ o ∈ checkedOffsets, input.getD o 0 = 0xFF) :
    WavLengthPatcher.read 0 input = some (0x4E, (input.set 0x04 0xF0).set 0x4A 0xF0) ∧
    ((input.set 0x04 0xF0).set 0x4A 0xF0).getD 0x04 0 = 0xF0 ∧
    ((input.set 0x04 0xF0).set 0x4A 0xF0).getD 0x4A 0 = 0xF0 ∧
    (∀ i, i ≠ 0x04 → i ≠ 0x4A →
      ((input.set 0x04 0xF0).set 0x4A 0xF0).getD i 0 = input.getD i 0) ∧
    le32 ((input.set 0x04 0xF0).set 0x4A 0xF0) 0x04 = 0xFFFFFFF0 ∧
    le32 ((input.set 0x04 0xF0).set 0x4A 0xF0) 0x4A = 0xFFFFFFF0 ∧
    0 < (0xFFFFFFF0 : Nat) ∧ (0xFFFFFFF0 : Nat) < 2 ^ 32 := by
  have hread := read_of_allFF input hlen hFF
  rw [patchedList_eq_set] at hread
  refine ⟨hread, ?_, ?_, ?_, ?_, ?_, by norm_num, by norm_num⟩
  · rw [setTwo_getD]
    rw [if_pos ⟨Or.inl rfl, by omega⟩]
  · rw [setTwo_getD]
    rw [if_pos ⟨Or.inr rfl, by omega⟩]
  · intro i h4 h74
    rw [setTwo_getD, if_neg (by omega)]
  · unfold le32
    rw [setTwo_getD, setTwo_getD, setTwo_getD, setTwo_getD]
    rw [if_pos ⟨Or.inl rfl, by omega⟩, if_neg (by omega), if_neg (by omega), if_neg (by omega)]
    rw [hFF 0x05 (by simp [checkedOffsets]), hFF 0x06 (by simp [checkedOffsets]),
      hFF 0x07 (by simp [checkedOffsets])]
  · unfold le32
    rw [setTwo_getD, setTwo_getD, setTwo_getD, setTwo_getD]
    rw [if_pos ⟨Or.inr rfl, by omega⟩, if_neg (by omega), if_neg (by omega), if_neg (by omega)]
    rw [hFF 0x4B (by simp [checkedOffsets]), hFF 0x4C (by simp [checkedOffsets]),
      hFF 0x4D (by simp [checkedOffsets])]

theorem stream_normalizer_patches_header_witness :
    0x4E ≤ (List.replicate 0x4E (0xFF : Nat)).length ∧
    (∀ o ∈ checkedOffsets, (List.replicate 0x4E (0xFF : Nat)).getD o 0 = 0xFF) ∧
    WavLengthPatcher.read 0 (List.replicate 0x4E (0xFF : Nat)) =
      some (0x4E, ((List.replicate 0x4E (0xFF : Nat)).set 0x04 0xF0).set 0x4A 0xF0) :=
  ⟨by decide, by decide,
    (stream_normalizer_patches_header (List.replicate 0x4E 0xFF) (by decide) (by decide)).1⟩

/-- C3: the patched output is independent of how the source splits the
byte stream across read calls: two chunkings of the same bytes give the
same concatenated output (including agreement on panics), and either
equals patching the whole stream in a single read. -/
theorem read_chunking_invariance (c1 c2 : List (List Nat)) (h : c1.flatten = c2.flatten) :
    (wlpRun 0 c1).map Prod.snd = (wlpRun 0 c2).map Prod.snd ∧
    (wlpRun 0 c1).map Prod.snd = (WavLengthPatcher.read 0 c1.flatten).map Prod.snd := by
  have h1 := wlpRun_snd c1 0 0 (Or.inl rfl)
  have h2 := wlpRun_snd c2 0 0 (Or.inl rfl)
  constructor
  · rw [h1, h2, h]
  · rw [h1, read_map_snd]

theorem read_chunking_invariance_witness :
    ([List.replicate 40 (0xFF : Nat), List.replicate 38 0xFF] : List (List Nat)).flatten =
      ([List.replicate 0x4E (0xFF : Nat)] : List (List Nat)).flatten ∧
    (wlpRun 0 [List.replicate 40 (0xFF : Nat), List.replicate 38 0xFF]).map Prod.snd =
      (wlpRun 0 [List.replicate 0x4E (0xFF : Nat)]).map Prod.snd :=
  ⟨by decide,
    (read_chunking_invariance [List.replicate 40 0xFF, List.replicate 38 0xFF]
      [List.replicate 0x4E 0xFF] (by decide)).1⟩

/-- C6: WavLengthPatcher::read fails fatally (assert, modelled none) on
any stream whose byte at one of the checked offsets 4,5,6,7,74,75,76,77
is not 0xFF. -/
theorem normalizer_rejects_non_sentinel (input : List Nat) (o : Nat)
    (hmem : o ∈ checkedOffsets) (hlt : o < input.length)
    (hne : input.getD o 0 ≠ 0xFF) :
    WavLengthPatcher.read 0 input = none := by
  have hc : canonPatch 0 input = none :=
    canonPatch_none input 0 o hlt (by simpa using hmem) hne
  rw [read_eq_of_lt input (by norm_num), hc]
  rfl

theorem normalizer_rejects_non_sentinel_witness :
    (4 : Nat) ∈ checkedOffsets ∧ 4 < ((List.replicate 0x4E (0xFF : Nat)).set 4 0).length ∧
    ((List.replicate 0x4E (0xFF : Nat)).set 4 0).getD 4 0 ≠ 0xFF ∧
    WavLengthPatcher.read 0 ((List.replicate 0x4E (0xFF : Nat)).set 4 0) = none :=
  ⟨by decide, by decide, by decide,
    normalizer_rejects_non_sentinel ((List.replicate 0x4E 0xFF).set 4 0) 4
      (by decide) (by decide) (by decide)⟩

/-- C7 counterexample: the claim says each patched little-endian field
decodes to 0xF0FFFFFF; on the all-0xFF 78-byte header the patched
fields at offsets 4 and 74 decode to 0xFFFFFFF0 instead, because the
overwritten byte is the least-significant (first) byte of the
little-endian field, not the most-significant one. -/
theorem patched_field_value_counterexample :
    (WavLengthPatcher.read 0 (List.replicate 0x4E (0xFF : Nat))).map (fun r => le32 r.2 0x04) =
      some 0xFFFFFFF0 ∧
    (WavLengthPatcher.read 0 (List.replicate 0x4E (0xFF : Nat))).map (fun r => le32 r.2 0x4A) =
      some 0xFFFFFFF0 ∧
    (0xFFFFFFF0 : Nat) ≠ 0xF0FFFFFF := by decide

/-- C7 (amended): the byte the patcher overwrites at offsets 4 and 74
is the least-significant byte of the corresponding 4-byte little-endian
length field; after patching the field's three upper bytes (offsets
5,6,7 and 75,76,77) remain 0xFF and only the low nibble of its bottom
byte is cleared, so each patched little-endian field decodes to
0xFFFFFFF0. -/
theorem patched_field_is_low_byte (input : List Nat) (hlen : 0x4E ≤ input.length)
    (hFF : ∀ o ∈ checkedOffsets, input.getD o 0 = 0xFF) :
    ∀ pos2 out, WavLengthPatcher.read 0 input = some (pos2, out) →
      out.getD 0x04 0 = 0xF0 ∧ out.getD 0x05 0 = 0xFF ∧ out.getD 0x06 0 = 0xFF ∧
      out.getD 0x07 0 = 0xFF ∧ out.getD 0x4A 0 = 0xF0 ∧ out.getD 0x4B 0 = 0xFF ∧
      out.getD 0x4C 0 = 0xFF ∧ out.getD 0x4D 0 = 0xFF ∧
      le32 out 0x04 = 0xFFFFFFF0 ∧ le32 out 0x4A = 0xFFFFFFF0 := by
  intro pos2 out hread
  rw [read_of_allFF input hlen hFF] at hread
  have hout : out = patchedList 0 input := by
    injection hread with h1
    injection h1 with h2 h3
    exact h3.symm
  subst hout
  have hget : ∀ i, (patchedList 0 input).getD i 0 =
      if (i = 0x04 ∨ i = 0x4A) ∧ i < input.length then 0xF0 else input.getD i 0 := by
    intro i
    rw [patchedList_getD]
    simp only [Nat.zero_add]
  have h5 := hFF 0x05 (by simp [checkedOffsets])
  have h6 := hFF 0x06 (by simp [checkedOffsets])
  have h7 := hFF 0x07 (by simp [checkedOffsets])
  have h75 := hFF 0x4B (by simp [checkedOffsets])
  have h76 := hFF 0x4C (by simp [checkedOffsets])
  have h77 := hFF 0x4D (by simp [checkedOffsets])
  refine ⟨?_, ?_, ?_, ?_, ?_, ?_, ?_, ?_, ?_, ?_⟩
  · rw [hget, if_pos ⟨Or.inl rfl, by omega⟩]
  · rw [hget, if_neg (by omega)]
    exact h5
  · rw [hget, if_neg (by omega)]
    exact h6
  · rw [hget, if_neg (by omega)]
    exact h7
  · rw [hget, if_pos ⟨Or.inr rfl, by omega⟩]
  · rw [hget, if_neg (by omega)]
    exact h75
  · rw [hget, if_neg (by omega)]
    exact h76
  · rw [hget, if_neg (by omega)]
    exact h77
  · unfold le32
    rw [hget, hget, hget, hget, if_pos ⟨Or.inl rfl, by omega⟩, if_neg (by omega),
      if_neg (by omega), if_neg (by omega), h5, h6, h7]
  · unfold le32
    rw [hget, hget, hget, hget, if_pos ⟨Or.inr rfl, by omega⟩, if_neg (by omega),
      if_neg (by omega), if_neg (by omega), h75, h76, h77]

theorem patched_field_is_low_byte_witness :
    0x4E ≤ (List.replicate 0x4E (0xFF : Nat)).length ∧
    (∀ o ∈ checkedOffsets, (List.replicate 0x4E (0xFF : Nat)).getD o 0 = 0xFF) ∧
    (((List.replicate 0x4E (0xFF : Nat)).set 0x04 0xF0).set 0x4A 0xF0).getD 0x04 0 = 0xF0 ∧
    le32 (((List.replicate 0x4E (0xFF : Nat)).set 0x04 0xF0).set 0x4A 0xF0) 0x04 = 0xFFFFFFF0 := by
  refine ⟨by decide, by decide, ?_, ?_⟩
  · exact (patched_field_is_low_byte (List.replicate 0x4E 0xFF) (by decide) (by decide)
      0x4E (((List.replicate 0x4E 0xFF).set 0x04 0xF0).set 0x4A 0xF0) (by decide)).1
  · exact (patched_field_is_low_byte (List.replicate 0x4E 0xFF) (by decide) (by decide)
      0x4E (((List.replicate 0x4E 0xFF).set 0x04 0xF0).set 0x4A 0xF0) (by decide)).2.2.2.2.2.2.2.2.1

theorem wlpRun_pos_bound : ∀ (chunks : List (List Nat)) (pos pos2 : Nat) (out : List Nat),
    pos ≤ 0x9B → wlpRun pos chunks = some (pos2, out) → pos2 ≤ 0x9B
  | [], pos, pos2, out, hb, h => by
    unfold wlpRun at h
    injection h with h1
    injection h1 with h2 h3
    omega
  | c :: cs, pos, pos2, out, hb, h => by
    unfold wlpRun at h
    cases hr : WavLengthPatcher.read pos c with
    | none => rw [hr] at h; exact absurd h (by simp)
    | some pr =>
      obtain ⟨p2, o⟩ := pr
      simp only [hr] at h
      have hp2 : p2 ≤ 0x9B := by
        have hp := read_pos_eq c hr
        by_cases hlt : pos < 0x4E
        · have := hp.1 hlt
          omega
        · have := hp.2 (by omega)
          omega
      cases hrun : wlpRun p2 cs with
      | none =>
        simp only [hrun] at h
        exact absurd h (by simp)
      | some pr2 =>
        obtain ⟨p3, os⟩ := pr2
        simp only [hrun] at h
        simp at h
        have := wlpRun_pos_bound cs p2 p3 os hp2 hrun
        omega

/-- C9: the byte counter pos is non-decreasing across read calls and is
either left alone or incremented exactly once by the capped read
length; starting from 0 it stays at or below 0x9B across any sequence
of reads, so the u8 addition `self.pos += capped_l` cannot wrap. -/
theorem byte_cursor_monotone_bounded :
    (∀ pos chunk pos2 out, WavLengthPatcher.read pos chunk = some (pos2, out) →
      pos ≤ pos2 ∧ pos2 ≤ max pos 0x9B ∧
      (pos2 = pos ∨ pos2 = pos + min chunk.length 0x4E)) ∧
    (∀ chunks pos2 out, wlpRun 0 chunks = some (pos2, out) → pos2 ≤ 0x9B) ∧
    (0x9B : Nat) < 2 ^ 8 := by
  refine ⟨?_, ?_, by norm_num⟩
  · intro pos chunk pos2 out h
    have hp := read_pos_eq chunk h
    by_cases hlt : pos < 0x4E
    · have := hp.1 hlt
      refine ⟨by omega, by omega, Or.inr this⟩
    · have := hp.2 (by omega)
      exact ⟨by omega, by omega, Or.inl this⟩
  · intro chunks pos2 out h
    exact wlpRun_pos_bound chunks 0 pos2 out (by norm_num) h

theorem byte_cursor_monotone_bounded_witness :
    ((5 : Nat) ≤ 8 ∧ 8 ≤ max 5 0x9B ∧ ((8 : Nat) = 5 ∨ 8 = 5 + min ([0xFF, 0xFF, 0xFF] : List Nat).length 0x4E)) ∧
    (3 : Nat) ≤ 0x9B :=
  ⟨byte_cursor_monotone_bounded.1 5 [0xFF, 0xFF, 0xFF] 8 [0xFF, 0xFF, 0xFF] (by decide),
    byte_cursor_monotone_bounded.2.1 [[0xFF, 0xFF, 0xFF]] 3 [0xFF, 0xFF, 0xFF] (by decide)⟩

/-- C10: when the wrapped source's read returns an error, the `?` in
WavLengthPatcher::read propagates that same error unchanged, the byte
counter pos keeps its prior value, and the patcher touches no byte of
the caller's buffer. -/
theorem read_error_propagation {ε : Type} (e : ε) (pos : Nat) (buf1 : List Nat) :
    wlpReadCall pos (Except.error e) buf1 = ReadOutcome.errored e pos buf1 := rfl

end Transcript

namespace Transcript

theorem toI16_encode (v : Int) (h1 : -0x8000 ≤ v) (h2 : v < 0x8000) :
    toI16 ((v % 0x10000).toNat % 0x100 + 0x100 * ((v % 0x10000).toNat / 0x100)) = v := by
  have hmod : (v % 0x10000).toNat % 0x100 + 0x100 * ((v % 0x10000).toNat / 0x100) =
      (v % 0x10000).toNat := Nat.mod_add_div _ _
  unfold toI16
  rw [hmod]
  split <;> omega

theorem houndSamples_cons (b0 b1 : Nat) (rest : List Nat) :
    houndSamples (b0 :: b1 :: rest) =
      SampleOutcome.ok (toI16 (b0 + 0x100 * b1)) :: houndSamples rest := rfl

theorem houndSamples_encode : ∀ (samples : List Int) (extra : List Nat),
    (∀ v ∈ samples, -0x8000 ≤ v ∧ v < 0x8000) →
    houndSamples (encodeSamples samples ++ extra) =
      samples.map SampleOutcome.ok ++ houndSamples extra
  | [], extra, _ => by simp [encodeSamples]
  | v :: rest, extra, h => by
    have hv := h v (by simp)
    have hrec := houndSamples_encode rest extra (fun w hw => h w (by simp [hw]))
    show houndSamples ((encodeI16 v ++ encodeSamples rest) ++ extra) = _
    rw [List.append_assoc]
    simp only [encodeI16, List.cons_append, List.nil_append]
    rw [houndSamples_cons, hrec, toI16_encode v hv.1 hv.2]
    simp

theorem collectSamples_cons_ok (v : Int) (rest : List SampleOutcome) :
    collectSamples (SampleOutcome.ok v :: rest) =
      match collectSamples rest with
      | Except.ok vs => Except.ok (v :: vs)
      | Except.error e => Except.error e := rfl

theorem collectSamples_append_ok : ∀ (samples : List Int) (tail : List SampleOutcome),
    collectSamples tail = Except.ok [] →
    collectSamples (samples.map SampleOutcome.ok ++ tail) = Except.ok samples
  | [], tail, h => by simpa using h
  | v :: rest, tail, h => by
    have hrec := collectSamples_append_ok rest tail h
    rw [show (v :: rest).map SampleOutcome.ok ++ tail =
      SampleOutcome.ok v :: (rest.map SampleOutcome.ok ++ tail) from rfl,
      collectSamples_cons_ok, hrec]

theorem collectSamples_append_error : ∀ (samples : List Int) (tail : List SampleOutcome)
    (e : String), collectSamples tail = Except.error e →
    collectSamples (samples.map SampleOutcome.ok ++ tail) = Except.error e
  | [], tail, e, h => by simpa using h
  | v :: rest, tail, e, h => by
    have hrec := collectSamples_append_error rest tail e h
    rw [show (v :: rest).map SampleOutcome.ok ++ tail =
      SampleOutcome.ok v :: (rest.map SampleOutcome.ok ++ tail) from rfl,
      collectSamples_cons_ok, hrec]

/-- C2: a stream with the exact required profile holding exactly N
complete 16-bit little-endian samples plus k (0 ≤ k < 2) trailing bytes
decodes to exactly those N samples in order; inside the sample loop the
end-of-stream condition is recognized by the error content "Failed to
read enough bytes." and absorbed as a clean end of input, while an
I/O error with any other content is fatal. -/
theorem pcm_decoder_roundtrip :
    (∀ (samples : List Int) (extra : List Nat),
      (∀ v ∈ samples, -0x8000 ≤ v ∧ v < 0x8000) → extra.length < 2 →
      parse_wav requiredSpec (houndSamples (encodeSamples samples ++ extra)) =
        Except.ok samples) ∧
    (∀ (good : List Int) (rest : List SampleOutcome),
      collectSamples (good.map SampleOutcome.ok ++
        SampleOutcome.ioError (some "Failed to read enough bytes.") :: rest) =
          Except.ok good) ∧
    (∀ (good : List Int) (inner : Option String) (rest : List SampleOutcome),
      inner ≠ some "Failed to read enough bytes." →
      ∃ e, collectSamples (good.map SampleOutcome.ok ++ SampleOutcome.ioError inner :: rest) =
        Except.error e) := by
  refine ⟨?_, ?_, ?_⟩
  · intro samples extra hr hlen
    have hpw : ∀ x, parse_wav requiredSpec x = collectSamples x := by
      intro x
      simp [parse_wav, requiredSpec]
    rw [hpw, houndSamples_encode samples extra hr]
    apply collectSamples_append_ok
    match extra, hlen with
    | [], _ => rfl
    | [b], _ => simp [houndSamples, collectSamples]
  · intro good rest
    apply collectSamples_append_ok
    simp [collectSamples]
  · intro good inner rest hne
    refine ⟨"Error reading audio data: io", ?_⟩
    apply collectSamples_append_error
    match inner, hne with
    | none, _ => rfl
    | some m, hne =>
      have hm : m ≠ "Failed to read enough bytes." := by
        intro hc
        exact hne (by rw [hc])
      simp [collectSamples, hm]

theorem pcm_decoder_roundtrip_witness :
    ((∀ v ∈ ([1, -1] : List Int), -0x8000 ≤ v ∧ v < 0x8000) ∧
      ([7] : List Nat).length < 2 ∧
      parse_wav requiredSpec (houndSamples (encodeSamples [1, -1] ++ [7])) =
        Except.ok [1, -1]) ∧
    collectSamples ([(3 : Int)].map SampleOutcome.ok ++
      SampleOutcome.ioError (some "Failed to read enough bytes.") :: []) = Except.ok [3] ∧
    (some "bad" ≠ some "Failed to read enough bytes." ∧
      ∃ e, collectSamples (([] : List Int).map SampleOutcome.ok ++
        SampleOutcome.ioError (some "bad") :: []) = Except.error e) :=
  ⟨⟨by decide, by decide, pcm_decoder_roundtrip.1 [1, -1] [7] (by decide) (by decide)⟩,
    pcm_decoder_roundtrip.2.1 [3] [],
    ⟨by decide, pcm_decoder_roundtrip.2.2 [] (some "bad") [] (by decide)⟩⟩

/-- C5: parse_wav fails with the format panic naming the offending
field whenever the declared profile deviates from 1 channel / integer
samples / 16000 Hz / 16 bits per sample in any field, and proceeds to
read samples exactly when the profile matches. -/
theorem pcm_decoder_profile_check (s : WavSpec) (samples : List SampleOutcome) :
    (s.channels ≠ 1 → parse_wav s samples = Except.error "expected mono audio file") ∧
    (s.channels = 1 → s.sample_format ≠ SampleFormat.int →
      parse_wav s samples = Except.error "expected integer sample format") ∧
    (s.channels = 1 → s.sample_format = SampleFormat.int → s.sample_rate ≠ 16000 →
      parse_wav s samples = Except.error "expected 16KHz sample rate") ∧
    (s.channels = 1 → s.sample_format = SampleFormat.int → s.sample_rate = 16000 →
      s.bits_per_sample ≠ 16 →
      parse_wav s samples = Except.error "expected 16 bits per sample") ∧
    (s ≠ requiredSpec → ∃ e, parse_wav s samples = Except.error e) ∧
    (s = requiredSpec → parse_wav s samples = collectSamples samples) := by
  refine ⟨?_, ?_, ?_, ?_, ?_, ?_⟩
  · intro h1
    simp [parse_wav, h1]
  · intro h1 h2
    simp [parse_wav, h1, h2]
  · intro h1 h2 h3
    simp [parse_wav, h1, h2, h3]
  · intro h1 h2 h3 h4
    simp [parse_wav, h1, h2, h3, h4]
  · intro hne
    obtain ⟨ch, sf, sr, bps⟩ := s
    by_cases h1 : ch = 1
    · by_cases h2 : sf = SampleFormat.int
      · by_cases h3 : sr = 16000
        · by_cases h4 : bps = 16
          · exact absurd (by subst h1 h2 h3 h4; rfl) hne
          · exact ⟨"expected 16 bits per sample", by simp [parse_wav, h1, h2, h3, h4]⟩
        · exact ⟨"expected 16KHz sample rate", by simp [parse_wav, h1, h2, h3]⟩
      · exact ⟨"expected integer sample format", by simp [parse_wav, h1, h2]⟩
    · exact ⟨"expected mono audio file", by simp [parse_wav, h1]⟩
  · intro he
    rw [he]
    simp [parse_wav, requiredSpec]

theorem pcm_decoder_profile_check_witness :
    parse_wav ⟨2, SampleFormat.int, 16000, 16⟩ [] =
      Except.error "expected mono audio file" ∧
    parse_wav ⟨1, SampleFormat.float, 16000, 16⟩ [] =
      Except.error "expected integer sample format" ∧
    parse_wav ⟨1, SampleFormat.int, 44100, 16⟩ [] =
      Except.error "expected 16KHz sample rate" ∧
    parse_wav ⟨1, SampleFormat.int, 16000, 8⟩ [] =
      Except.error "expected 16 bits per sample" ∧
    parse_wav requiredSpec [] = collectSamples [] :=
  ⟨(pcm_decoder_profile_check ⟨2, SampleFormat.int, 16000, 16⟩ []).1 (by decide),
    (pcm_decoder_profile_check ⟨1, SampleFormat.float, 16000, 16⟩ []).2.1 rfl (by decide),
    (pcm_decoder_profile_check ⟨1, SampleFormat.int, 44100, 16⟩ []).2.2.1 rfl rfl (by decide),
    (pcm_decoder_profile_check ⟨1, SampleFormat.int, 16000, 8⟩ []).2.2.2.1 rfl rfl rfl
      (by decide),
    (pcm_decoder_profile_check requiredSpec []).2.2.2.2.2 rfl⟩

end Transcript

namespace Transcript

theorem padInt_cast (w m : Nat) : padInt w ((m : Nat) : Int) = padNat w m := by
  unfold padInt
  rw [if_neg (not_lt.mpr (Int.natCast_nonneg m)), Int.natAbs_ofNat]

theorem stst_formula (t : Int) (h : max 0 t * 10 < 2 ^ 63) :
    segment_time_to_srt_time_string t =
      padNat 2 ((max 0 t).toNat * 10 / 1000 / 60 / 60) ++ ":" ++
        padNat 2 ((max 0 t).toNat * 10 / 1000 / 60 % 60) ++ ":" ++
        padNat 2 ((max 0 t).toNat * 10 / 1000 % 60) ++ "," ++
        padNat 3 ((max 0 t).toNat * 10 % 1000) := by
  set n : Nat := (max 0 t).toNat with hn
  have hm0 : 0 ≤ max 0 t := le_max_left 0 t
  have hcast : ((n : Nat) : Int) = max 0 t := Int.toNat_of_nonneg hm0
  have hc10 : ((n * 10 : Nat) : Int) = max 0 t * 10 := by
    push_cast
    rw [hcast]
  have hw : i64wrap (max 0 t * 10) = ((n * 10 : Nat) : Int) := by
    unfold i64wrap
    rw [← hc10]
    have hb : ((n * 10 : Nat) : Int) < 2 ^ 63 := by rw [hc10]; exact h
    omega
  have h2 : (((n * 10 : Nat) : Int)).tdiv 1000 = ((n * 10 / 1000 : Nat) : Int) := by
    rw [Int.tdiv_eq_ediv (Int.natCast_nonneg _) (by norm_num)]
    omega
  have h1 : (((n * 10 : Nat) : Int)).tmod 1000 = ((n * 10 % 1000 : Nat) : Int) := by
    rw [Int.tmod_eq_emod (Int.natCast_nonneg _) (by norm_num)]
    omega
  have h3 : (((n * 10 / 1000 : Nat) : Int)).tmod 60 = ((n * 10 / 1000 % 60 : Nat) : Int) := by
    rw [Int.tmod_eq_emod (Int.natCast_nonneg _) (by norm_num)]
    omega
  have h4 : (((n * 10 / 1000 : Nat) : Int)).tdiv 60 = ((n * 10 / 1000 / 60 : Nat) : Int) := by
    rw [Int.tdiv_eq_ediv (Int.natCast_nonneg _) (by norm_num)]
    omega
  have h5 : (((n * 10 / 1000 / 60 : Nat) : Int)).tmod 60 =
      ((n * 10 / 1000 / 60 % 60 : Nat) : Int) := by
    rw [Int.tmod_eq_emod (Int.natCast_nonneg _) (by norm_num)]
    omega
  have h6 : (((n * 10 / 1000 / 60 : Nat) : Int)).tdiv 60 =
      ((n * 10 / 1000 / 60 / 60 : Nat) : Int) := by
    rw [Int.tdiv_eq_ediv (Int.natCast_nonneg _) (by norm_num)]
    omega
  simp only [segment_time_to_srt_time_string]
  rw [hw, h2, h1, h3, h4, h5, h6, padInt_cast, padInt_cast, padInt_cast, padInt_cast]

/-- C4 (amended): for every centisecond input t for which the i64
product max(0,t)*10 does not overflow (that is, max 0 t * 10 < 2^63),
the formatter returns the clock string the spec describes — clamp to
zero, convert to milliseconds, decompose with mathematical integer
division, hours unbounded, components zero-padded to 2/2/2/3 digits —
and in particular every negative input yields "00:00:00,000". -/
theorem timestamp_formatter_formula (t : Int) (h : max 0 t * 10 < 2 ^ 63) :
    segment_time_to_srt_time_string t = specSrtTime t ∧
    (t < 0 → segment_time_to_srt_time_string t = "00:00:00,000") := by
  have hf := stst_formula t h
  constructor
  · rw [hf]
    rfl
  · intro ht
    have hmax : max 0 t = 0 := max_eq_left (le_of_lt ht)
    rw [hf, hmax]
    rfl

theorem timestamp_formatter_formula_witness :
    (max 0 (1999 : Int) * 10 < 2 ^ 63 ∧
      segment_time_to_srt_time_string 1999 = "00:00:19,990") ∧
    (max 0 (-4550 : Int) * 10 < 2 ^ 63 ∧ (-4550 : Int) < 0 ∧
      segment_time_to_srt_time_string (-4550) = "00:00:00,000") :=
  ⟨⟨by decide, ((timestamp_formatter_formula 1999 (by decide)).1).trans (by decide)⟩,
    ⟨by decide, by decide, (timestamp_formatter_formula (-4550) (by decide)).2 (by decide)⟩⟩

/-- C4 counterexample: the claim quantifies over every 64-bit integer
input, but at t = 2^62 the i64 multiplication max(0,t)*10 overflows and
wraps; the code's output differs from the spec formula's mathematical
rendering there, so the claim as stated fails. -/
theorem timestamp_overflow_counterexample :
    segment_time_to_srt_time_string (2 ^ 62) ≠ specSrtTime (2 ^ 62) := by decide

end Transcript

namespace Transcript

theorem renderLoop_spec : ∀ (segs : List Segment) (i : Nat),
    (renderLoop i segs).1.length = segs.length ∧
    (renderLoop i segs).2.length = segs.length ∧
    ∀ j, j < segs.length →
      (renderLoop i segs).2.getD j "" =
        "[" ++ toString (segs.getD j ⟨0, 0, ""⟩).t0 ++ " - " ++
          toString (segs.getD j ⟨0, 0, ""⟩).t1 ++ "]: " ++
          (segs.getD j ⟨0, 0, ""⟩).text ++ "\n" ∧
      (renderLoop i segs).1.getD j "" =
        toString (i + j + 1) ++ "\n" ++
          segment_time_to_srt_time_string (segs.getD j ⟨0, 0, ""⟩).t0 ++ " --> " ++
          segment_time_to_srt_time_string (segs.getD j ⟨0, 0, ""⟩).t1 ++ "\n" ++
          (segs.getD j ⟨0, 0, ""⟩).text ++ "\n\n"
  | [], i => ⟨rfl, rfl, fun j hj => absurd hj (by simp)⟩
  | s :: rest, i => by
    have hrec := renderLoop_spec rest (i + 1)
    refine ⟨?_, ?_, ?_⟩
    · show ((renderLoop (i + 1) rest).1.length + 1 : Nat) = rest.length + 1
      rw [hrec.1]
    · show ((renderLoop (i + 1) rest).2.length + 1 : Nat) = rest.length + 1
      rw [hrec.2.1]
    · intro j hj
      match j with
      | 0 => exact ⟨rfl, rfl⟩
      | j' + 1 =>
        have hj' : j' < rest.length := by
          simpa using Nat.lt_of_succ_lt_succ hj
        have hr := hrec.2.2 j' hj'
        refine ⟨hr.1, ?_⟩
        have he : i + (j' + 1) + 1 = (i + 1) + j' + 1 := by omega
        show (renderLoop (i + 1) rest).1.getD j' "" = _
        rw [he]
        exact hr.2

/-- C8: the rendering loop of main emits, in engine order with no
reordering, filtering or deduplication, one plain-text line per segment
of the form [start - end]: text plus newline using the raw integer
times, and one SRT cue block per segment numbered by 1-based position
whose clock strings are outputs of segment_time_to_srt_time_string. -/
theorem transcript_assembler_rendering (segs : List Segment) :
    (renderLoop 0 segs).1.length = segs.length ∧
    (renderLoop 0 segs).2.length = segs.length ∧
    ∀ j, j < segs.length →
      (renderLoop 0 segs).2.getD j "" =
        "[" ++ toString (segs.getD j ⟨0, 0, ""⟩).t0 ++ " - " ++
          toString (segs.getD j ⟨0, 0, ""⟩).t1 ++ "]: " ++
          (segs.getD j ⟨0, 0, ""⟩).text ++ "\n" ∧
      (renderLoop 0 segs).1.getD j "" =
        toString (j + 1) ++ "\n" ++
          segment_time_to_srt_time_string (segs.getD j ⟨0, 0, ""⟩).t0 ++ " --> " ++
          segment_time_to_srt_time_string (segs.getD j ⟨0, 0, ""⟩).t1 ++ "\n" ++
          (segs.getD j ⟨0, 0, ""⟩).text ++ "\n\n" := by
  have h := renderLoop_spec segs 0
  refine ⟨h.1, h.2.1, ?_⟩
  intro j hj
  have hr := h.2.2 j hj
  rw [Nat.zero_add] at hr
  exact hr

theorem transcript_assembler_rendering_witness :
    (1 : Nat) < ([⟨0, 500, "hello"⟩, ⟨500, 1200, "world"⟩] : List Segment).length ∧
    (renderLoop 0 [⟨0, 500, "hello"⟩, ⟨500, 1200, "world"⟩]).2.getD 1 "" =
      "[500 - 1200]: world\n" ∧
    (renderLoop 0 [⟨0, 500, "hello"⟩, ⟨500, 1200, "world"⟩]).1.getD 1 "" =
      "2\n00:00:05,000 --> 00:00:12,000\nworld\n\n" :=
  ⟨by decide,
    ((transcript_assembler_rendering [⟨0, 500, "hello"⟩, ⟨500, 1200, "world"⟩]).2.2 1
      (by decide)).1.trans (by decide),
    ((transcript_assembler_rendering [⟨0, 500, "hello"⟩, ⟨500, 1200, "world"⟩]).2.2 1
      (by decide)).2.trans (by decide)⟩

end Transcript
